import Mathlib

/-
Verification of the structured-value codec layer of the DICOM library:
the person-name (PN) micro-format codec, the temporal (DA/TM/DT) codec,
and the element value decoder / fatal-on-error facade.

Go text values are modelled as Lean `String`s; `strings.Split` with a
one-character separator is modelled by `splitCh` / `splitOnCh` below, and
`strings.HasSuffix` with a one-character suffix by `hasSuffixCh`.
Fallible Go functions returning `(T, error)` are modelled as `Except` /
`Option` values, and `panic` as a dedicated outcome constructor.
-/

/-- Model of Go `strings.Split(l, sep)` for a single-character separator,
on lists of characters.  `Split` of the empty string is `[[]]`, and a
trailing separator produces a trailing empty part. -/
def splitCh (sep : Char) : List Char → List (List Char)
  | [] => [[]]
  | c :: rest =>
    let r := splitCh sep rest
    if c = sep then [] :: r
    else
      match r with
      | h :: t => (c :: h) :: t
      | [] => [[c]]

/-- `strings.Split` on `String`s, single-character separator. -/
def splitOnCh (sep : Char) (s : String) : List String :=
  (splitCh sep s.data).map String.mk

/-- Model of Go `strings.HasSuffix(s, c)` for a one-character suffix. -/
def hasSuffixCh (s : String) (c : Char) : Bool :=
  s.data.getLast? = some c

namespace personname

/-- The PN segment separator `^`. -/
def segmentSep : Char := '^'

/-- The PN group separator `=`. -/
def groupSep : Char := '='

/-- `pnGroup` enum: the three person-name groups, in positional order. -/
inductive pnGroup where
  | alphabetic
  | ideographic
  | phonetic
  deriving DecidableEq, Repr

/-- Conversion `pnGroup(i)` from a group index (only indices 0‥2 occur). -/
def pnGroupOfIdx : Nat → pnGroup
  | 0 => .alphabetic
  | 1 => .ideographic
  | _ => .phonetic

/-- The classified failures of the person-name codec:
`newErrTooManyGroups`, `newErrTooManyGroupSegments` and
`newErrNullSepLevelInvalid` (the latter is the payload of the `panic`
raised by `DCM` on an out-of-range trailing-null level). -/
inductive PNError where
  | tooManyGroups (count : Nat)
  | tooManyGroupSegments (group : pnGroup) (count : Nat)
  | nullSepLevelInvalid (maxLevel : Nat) (level : Nat)
  deriving DecidableEq, Repr

/-- `GroupTrailingNullLevel` is a Go `uint`. -/
abbrev GroupTrailingNullLevel := Nat

/-- `GroupNullNone`: render no null separators. -/
def GroupNullNone : GroupTrailingNullLevel := 0

/-- `GroupNullGiven`. -/
def GroupNullGiven : GroupTrailingNullLevel := 1

/-- `GroupNullMiddle`. -/
def GroupNullMiddle : GroupTrailingNullLevel := 2

/-- `GroupNullPrefixLevel` (source constant for the separator before the
name-prefix segment). -/
def GroupNullPrefixLevel : GroupTrailingNullLevel := 3

/-- `GroupNullAll`: render every possible null separator. -/
def GroupNullAll : GroupTrailingNullLevel := 4

/-- `validateGroupNullSepLevel`: `none` when the level is in range. -/
def validateGroupNullSepLevel (level : GroupTrailingNullLevel) : Option PNError :=
  if level ≤ GroupNullAll then none
  else some (.nullSepLevelInvalid GroupNullAll level)

/-- `GroupInfo`: one parsed person-name group.  The Go field `NamePrefix`
is called `NamePfx` here. -/
structure GroupInfo where
  FamilyName : String
  GivenName : String
  MiddleName : String
  NamePfx : String
  NameSuffix : String
  TrailingNullLevel : GroupTrailingNullLevel
  deriving DecidableEq, Repr

/-- The Go zero value of `GroupInfo`. -/
def GroupInfo.empty : GroupInfo :=
  { FamilyName := "", GivenName := "", MiddleName := "", NamePfx := ""
    NameSuffix := "", TrailingNullLevel := 0 }

/-- Index of the last non-empty entry of a segment list (0 if none). -/
def lastNonEmptyIdx (segments : List String) : Nat :=
  segments.enum.foldl (fun acc p => if p.2 = "" then acc else p.1) 0

/-- Modelled from the spec: the Separator Renderer primitive
(`renderWithSeps`), whose implementation is not part of the source
sample.  It joins `segments` with `sep`, dropping trailing empty
segments, but always emitting at least the separators demanded by
`nullLevel` (level 0 forces none, the maximum level forces every
separator up to the last segment boundary). -/
def renderWithSeps (segments : List String) (sep : Char) (nullLevel : Nat) : String :=
  String.mk
    (List.intercalate [sep]
      ((segments.take (max (lastNonEmptyIdx segments) nullLevel + 1)).map String.data))

/-- `GroupInfo.DCM`: serialize one group in
`[FamilyName]^[GivenName]^[MiddleName]^[NamePrefix]^[NameSuffix]` form.
The Go method panics when the trailing-null level is out of range; the
panic is modelled as the `error` branch. -/
def GroupInfo.DCM (group : GroupInfo) : Except PNError String :=
  match validateGroupNullSepLevel group.TrailingNullLevel with
  | some err => .error err
  | none =>
    .ok (renderWithSeps
      [group.FamilyName, group.GivenName, group.MiddleName, group.NamePfx,
        group.NameSuffix]
      segmentSep group.TrailingNullLevel)

/-- `GroupInfo.IsEmpty`: true when every segment is empty. -/
def GroupInfo.IsEmpty (group : GroupInfo) : Bool :=
  group.FamilyName == "" &&
    group.GivenName == "" &&
    group.MiddleName == "" &&
    group.NamePfx == "" &&
    group.NameSuffix == ""

/-- The null-separator-level tracking loop shared by `groupFromValueString`
and `Parse`: scanning entries left to right from index `i`, an empty entry
sets the level to its index, a non-empty one resets it to 0. -/
def segLevelLoop (i : Nat) (entries : List String) (level : Nat) : Nat :=
  match entries with
  | [] => level
  | s :: rest => segLevelLoop (i + 1) rest (if s = "" then i else 0)

/-- `groupFromValueString`: parse one `^`-separated group string. -/
def groupFromValueString (groupString : String) (group : pnGroup) :
    Except PNError GroupInfo :=
  let segments := splitOnCh segmentSep groupString
  if segments.length > 5 then
    .error (.tooManyGroupSegments group segments.length)
  else
    let nullSepLevel := segLevelLoop 0 segments 0
    .ok
      { FamilyName := segments.getD 0 ""
        GivenName := segments.getD 1 ""
        MiddleName := segments.getD 2 ""
        NamePfx := segments.getD 3 ""
        NameSuffix := segments.getD 4 ""
        TrailingNullLevel :=
          if hasSuffixCh groupString segmentSep then nullSepLevel else 0 }

/-- `InfoTrailingNullLevel` is a Go `uint`. -/
abbrev InfoTrailingNullLevel := Nat

/-- `InfoNullNone`. -/
def InfoNullNone : InfoTrailingNullLevel := 0

/-- `InfoNullIdeographic`. -/
def InfoNullIdeographic : InfoTrailingNullLevel := 1

/-- `InfoNullAll`. -/
def InfoNullAll : InfoTrailingNullLevel := 2

/-- `validateInfoNullSepLevel`: `none` when the level is in range. -/
def validateInfoNullSepLevel (level : InfoTrailingNullLevel) : Option PNError :=
  if level ≤ InfoNullAll then none
  else some (.nullSepLevelInvalid InfoNullAll level)

/-- `Info`: a full parsed PN value (three groups plus the `=`-tier
trailing-null level). -/
structure Info where
  Alphabetic : GroupInfo
  Ideographic : GroupInfo
  Phonetic : GroupInfo
  TrailingNullLevel : InfoTrailingNullLevel
  deriving DecidableEq, Repr

/-- The Go zero value of `Info`. -/
def Info.empty : Info :=
  { Alphabetic := GroupInfo.empty, Ideographic := GroupInfo.empty
    Phonetic := GroupInfo.empty, TrailingNullLevel := 0 }

/-- `Info.WithFormat`: return a copy with the given null-separator levels. -/
def Info.WithFormat (info : Info) (infoNullSepLevel : InfoTrailingNullLevel)
    (alphabeticNullSepLevel ideographicNullSepLevel phoneticNullSepLevel :
      GroupTrailingNullLevel) : Info :=
  { info with
    TrailingNullLevel := infoNullSepLevel
    Alphabetic := { info.Alphabetic with TrailingNullLevel := alphabeticNullSepLevel }
    Ideographic :=
      { info.Ideographic with TrailingNullLevel := ideographicNullSepLevel }
    Phonetic := { info.Phonetic with TrailingNullLevel := phoneticNullSepLevel } }

/-- `Info.WithTrailingNulls`: force every null level to ALL. -/
def Info.WithTrailingNulls (info : Info) : Info :=
  info.WithFormat InfoNullAll GroupNullAll GroupNullAll GroupNullAll

/-- `Info.WithoutTrailingNulls`: force every null level to NONE. -/
def Info.WithoutTrailingNulls (info : Info) : Info :=
  info.WithFormat InfoNullNone GroupNullNone GroupNullNone GroupNullNone

/-- `Info.DCM`: serialize in `[Alphabetic]=[Ideographic]=[Phonetic]` form.
The Go method panics when a trailing-null level is out of range (at the
info tier directly, at the group tier inside `GroupInfo.DCM`); both
panics are modelled as the `error` branch. -/
def Info.DCM (info : Info) : Except PNError String :=
  match validateInfoNullSepLevel info.TrailingNullLevel with
  | some err => .error err
  | none =>
    match info.Alphabetic.DCM, info.Ideographic.DCM, info.Phonetic.DCM with
    | .ok a, .ok i, .ok p =>
      .ok (renderWithSeps [a, i, p] groupSep info.TrailingNullLevel)
    | .error e, _, _ => .error e
    | _, .error e, _ => .error e
    | _, _, .error e => .error e

/-- `Info.IsEmpty`: true when all three groups are empty. -/
def Info.IsEmpty (info : Info) : Bool :=
  info.Alphabetic.IsEmpty && info.Ideographic.IsEmpty && info.Phonetic.IsEmpty

/-- The group of `info` at positional index `k` (proof helper mirroring
the positional group order of the parse loop). -/
def Info.nthGroup (info : Info) (k : Nat) : GroupInfo :=
  match k with
  | 0 => info.Alphabetic
  | 1 => info.Ideographic
  | 2 => info.Phonetic
  | _ => GroupInfo.empty

/-- The by-index group assignment of the `Parse` loop. -/
def applyGroup (info : Info) (i : Nat) (gi : GroupInfo) : Info :=
  match i with
  | 0 => { info with Alphabetic := gi }
  | 1 => { info with Ideographic := gi }
  | 2 => { info with Phonetic := gi }
  | _ => info

/-- The group-parsing loop of `Parse`: parse each group string and assign
it to its positional group, propagating the first failure. -/
def parseGroupsLoop (i : Nat) (groups : List String) (info : Info) :
    Except PNError Info :=
  match groups with
  | [] => .ok info
  | g :: rest =>
    match groupFromValueString g (pnGroupOfIdx i) with
    | .error e => .error e
    | .ok gi => parseGroupsLoop (i + 1) rest (applyGroup info i gi)

/-- `Parse`: parse a PN DICOM value into an `Info` value. -/
def Parse (valueString : String) : Except PNError Info :=
  let groups := splitOnCh groupSep valueString
  if groups.length > 3 then
    .error (.tooManyGroups groups.length)
  else
    match parseGroupsLoop 0 groups Info.empty with
    | .error e => .error e
    | .ok info =>
      .ok { info with TrailingNullLevel := segLevelLoop 0 groups 0 }

end personname

namespace dcmtime

/-- `PrecisionLevel`: which trailing components of a temporal value were
present in its source text. -/
inductive PrecisionLevel where
  | full
  | day
  | month
  | year
  | hours
  | minutes
  deriving DecidableEq, Repr

/-- `ErrParseDA`: the single parse-failure kind of the date codec,
carrying the offending raw text. -/
inductive DAErr where
  | parseDA (raw : String)
  deriving DecidableEq, Repr

/-- `Date`: a partial-precision calendar value.  The Go struct holds a
`time.Time`; only its year/month/day components are meaningful for a
`DA` value, so they are carried directly.  Absent trailing components
default to their minimum (month 1, day 1). -/
structure Date where
  year : Nat
  month : Nat
  day : Nat
  Precision : PrecisionLevel
  deriving DecidableEq, Repr

/-- True when every character of the list is a decimal digit. -/
def allDigits (l : List Char) : Bool :=
  l.all Char.isDigit

/-- The numeric value of a run of decimal digit characters. -/
def digitsToNat (l : List Char) : Nat :=
  l.foldl (fun a c => 10 * a + (c.toNat - 48)) 0

/-- The character of the decimal digit `n % 10`. -/
def digitChar (n : Nat) : Char :=
  Char.ofNat (48 + n % 10)

/-- A two-digit zero-padded decimal group (Go `%02d`, values < 100). -/
def pad2 (n : Nat) : String :=
  String.mk [digitChar (n / 10), digitChar n]

/-- A four-digit zero-padded decimal group (Go `%04d`, values < 10000). -/
def pad4 (n : Nat) : String :=
  String.mk [digitChar (n / 1000), digitChar (n / 100), digitChar (n / 10), digitChar n]

/-- Modelled from the spec: the legacy (pre-DICOM NEMA-300) dot-delimited
date forms `YYYY.MM.DD` and `YYYY.MM`; the implementation of the date
codec is not part of the source sample. -/
def nemaDate (l : List Char) : Option Date :=
  match l with
  | [y1, y2, y3, y4, p1, m1, m2, p2, d1, d2] =>
    if allDigits [y1, y2, y3, y4, m1, m2, d1, d2] && p1 = '.' && p2 = '.' then
      some
        { year := digitsToNat [y1, y2, y3, y4], month := digitsToNat [m1, m2]
          day := digitsToNat [d1, d2], Precision := .full }
    else none
  | [y1, y2, y3, y4, p1, m1, m2] =>
    if allDigits [y1, y2, y3, y4, m1, m2] && p1 = '.' then
      some
        { year := digitsToNat [y1, y2, y3, y4], month := digitsToNat [m1, m2]
          day := 1, Precision := .month }
    else none
  | _ => none

/-- Modelled from the spec: `ParseDate(text, allowNema)`.  The strict
forms are exactly 8 digits (`YYYYMMDD`, full precision), 6 digits
(`YYYYMM`, month precision) and 4 digits (`YYYY`, year precision); when
`allowNema` is set the dot-delimited legacy forms are also accepted; any
other text fails with `ErrParseDA` carrying the raw text. -/
def ParseDate (text : String) (allowNema : Bool) : Except DAErr Date :=
  let l := text.data
  if l.length = 8 && allDigits l then
    .ok
      { year := digitsToNat (l.take 4), month := digitsToNat ((l.drop 4).take 2)
        day := digitsToNat (l.drop 6), Precision := .full }
  else if l.length = 6 && allDigits l then
    .ok
      { year := digitsToNat (l.take 4), month := digitsToNat (l.drop 4)
        day := 1, Precision := .month }
  else if l.length = 4 && allDigits l then
    .ok { year := digitsToNat l, month := 1, day := 1, Precision := .year }
  else if allowNema then
    match nemaDate l with
    | some da => .ok da
    | none => .error (.parseDA text)
  else .error (.parseDA text)

/-- Modelled from the spec: `Date.DCM()` re-emits exactly the digit
groups implied by the recorded precision (year always, month from month
precision up, day from day/full precision), never a legacy dot
delimiter. -/
def Date.DCM (da : Date) : String :=
  match da.Precision with
  | .year => pad4 da.year
  | .month => pad4 da.year ++ pad2 da.month
  | _ => pad4 da.year ++ pad2 da.month ++ pad2 da.day

/-- `ErrParseTM`: the parse-failure kind of the time codec. -/
inductive TMErr where
  | parseTM (raw : String)
  deriving DecidableEq, Repr

/-- `Time`: a partial-precision clock value. -/
structure Time where
  hour : Nat
  minute : Nat
  second : Nat
  Precision : PrecisionLevel
  deriving DecidableEq, Repr

/-- Modelled from the spec: `ParseTime(text)` over the `HH[MM[SS]]`
digit grouping of the format's clock convention, precision tracking the
trailing fields supplied. -/
def ParseTime (text : String) : Except TMErr Time :=
  let l := text.data
  if l.length = 6 && allDigits l then
    .ok
      { hour := digitsToNat (l.take 2), minute := digitsToNat ((l.drop 2).take 2)
        second := digitsToNat (l.drop 4), Precision := .full }
  else if l.length = 4 && allDigits l then
    .ok
      { hour := digitsToNat (l.take 2), minute := digitsToNat (l.drop 2)
        second := 0, Precision := .minutes }
  else if l.length = 2 && allDigits l then
    .ok { hour := digitsToNat l, minute := 0, second := 0, Precision := .hours }
  else .error (.parseTM text)

/-- `ErrParseDT`: the parse-failure kind of the datetime codec. -/
inductive DTErr where
  | parseDT (raw : String)
  deriving DecidableEq, Repr

/-- `Datetime`: a partial-precision combined calendar/clock value. -/
structure Datetime where
  year : Nat
  month : Nat
  day : Nat
  hour : Nat
  minute : Nat
  second : Nat
  Precision : PrecisionLevel
  deriving DecidableEq, Repr

/-- Modelled from the spec: `ParseDatetime(text)` over the
`YYYY[MM[DD[HH[MM[SS]]]]]` digit grouping of the format's combined
convention, precision tracking the trailing fields supplied. -/
def ParseDatetime (text : String) : Except DTErr Datetime :=
  let l := text.data
  if allDigits l then
    if l.length = 14 then
      .ok
        { year := digitsToNat (l.take 4), month := digitsToNat ((l.drop 4).take 2)
          day := digitsToNat ((l.drop 6).take 2)
          hour := digitsToNat ((l.drop 8).take 2)
          minute := digitsToNat ((l.drop 10).take 2)
          second := digitsToNat (l.drop 12), Precision := .full }
    else if l.length = 12 then
      .ok
        { year := digitsToNat (l.take 4), month := digitsToNat ((l.drop 4).take 2)
          day := digitsToNat ((l.drop 6).take 2)
          hour := digitsToNat ((l.drop 8).take 2)
          minute := digitsToNat (l.drop 10), second := 0, Precision := .minutes }
    else if l.length = 10 then
      .ok
        { year := digitsToNat (l.take 4), month := digitsToNat ((l.drop 4).take 2)
          day := digitsToNat ((l.drop 6).take 2)
          hour := digitsToNat (l.drop 8)
          minute := 0, second := 0, Precision := .hours }
    else if l.length = 8 then
      .ok
        { year := digitsToNat (l.take 4), month := digitsToNat ((l.drop 4).take 2)
          day := digitsToNat (l.drop 6)
          hour := 0, minute := 0, second := 0, Precision := .day }
    else if l.length = 6 then
      .ok
        { year := digitsToNat (l.take 4), month := digitsToNat (l.drop 4)
          day := 1, hour := 0, minute := 0, second := 0, Precision := .month }
    else if l.length = 4 then
      .ok
        { year := digitsToNat l, month := 1, day := 1
          hour := 0, minute := 0, second := 0, Precision := .year }
    else .error (.parseDT text)
  else .error (.parseDT text)

end dcmtime

namespace tag

/-- `tag.Tag`: a (group, element) pair of 16-bit values. -/
structure Tag where
  Group : Nat
  Element : Nat
  deriving DecidableEq, Repr

/-- Modelled from the spec: `tag.IsPrivate(group)` — groups with an odd
numeric value are private.  The tag package is not part of the source
sample. -/
def IsPrivate (group : Nat) : Bool :=
  group % 2 = 1

/-- Modelled from the spec: a `TagSpec` dictionary entry
`{name, VR code, VM specification string}`.  The VM-spec parser is not
part of the source sample, so the `VMInfo.IsSingleValue()` predicate is
carried as the Boolean field `VMIsSingle`. -/
structure Info where
  Name : String
  VR : String
  VM : String
  VMIsSingle : Bool
  deriving DecidableEq, Repr

/-- Modelled from the spec: the Tag Dictionary Gateway, a read-only
lookup from tags to `TagSpec` entries (`none` models the "not found"
error of `tag.Find`). -/
def TagDict : Type := Tag → Option Info

/-- `tag.Find`: dictionary lookup; `none` models a lookup miss. -/
def Find (dict : TagDict) (t : Tag) : Option Info :=
  dict t

end tag

namespace vrraw

/-- Modelled from the spec: the VR code of person-name payloads
(`vrraw.PersonName`). -/
def PersonName : String := "PN"

/-- Modelled from the spec: the VR code of date payloads (`vrraw.Date`). -/
def Date : String := "DA"

/-- Modelled from the spec: the VR code of time payloads (`vrraw.Time`). -/
def Time : String := "TM"

/-- Modelled from the spec: the VR code of datetime payloads
(`vrraw.DateTime`). -/
def DateTime : String := "DT"

end vrraw

namespace dicom

/-- The closed variant of an element's untyped payload
(`Element.Value.GetValue()`): byte sequence, string sequence, integer
sequence, or one of the variants outside this core's scope. -/
inductive ElementValue where
  | bytes (b : List Nat)
  | strs (s : List String)
  | ints (i : List Int)
  | other
  deriving DecidableEq, Repr

/-- The Go `reflect.TypeOf` name of a payload variant, as it appears in
conversion-error messages. -/
def ElementValue.typeName : ElementValue → String
  | .bytes _ => "[]uint8"
  | .strs _ => "[]string"
  | .ints _ => "[]int"
  | .other => "other"

/-- `dicom.Element` (the fields the decoder consumes): tag, declared VR
code, and untyped payload. -/
structure Element where
  Tag : tag.Tag
  RawValueRepresentation : String
  Value : ElementValue
  deriving DecidableEq, Repr

/-- The decoder's classified failures, mirroring the sentinel-error
hierarchy of the source: conversion failures (`ErrConvertTypeValue`,
carrying the two `reflect.TypeOf` names), multiple-values failures
(`ErrMultipleValuesFound`, carrying the observed count), multiplicity
spec violations (`ErrDicomSpecNotSingle`, carrying the raw VM string),
wrong-VR spec violations (`ErrWrongValueRepresentation`, carrying the
`reflect.TypeOf` name of the target value, the expected VR code and the
found VR code), the contextual wrappers added around payload parse
failures, and the wrapper added around `ToStrings` failures in the
temporal conversions. -/
inductive DecodeErr where
  | convertValue (expected : String) (actual : String)
  | multipleValues (count : Nat)
  | specNotSingle (vmRaw : String)
  | badVR (targetType : String) (expectedVR : String) (foundVR : String)
  | pnParseWrap (idx : Nat) (e : personname.PNError)
  | daParseWrap (idx : Nat) (e : dcmtime.DAErr)
  | tmParseWrap (idx : Nat) (e : dcmtime.TMErr)
  | dtParseWrap (idx : Nat) (e : dcmtime.DTErr)
  | stringsWrap (e : DecodeErr)
  deriving DecidableEq, Repr

namespace ElementValueDecoder

/-- `checkSingleValue`: `none` when the count-1 / VM-spec checks pass,
`some` the classified failure otherwise. -/
def checkSingleValue (dict : tag.TagDict) (elementTag : tag.Tag)
    (valueCount : Nat) (checkSpec : Bool) : Option DecodeErr :=
  if valueCount ≠ 1 then some (.multipleValues valueCount)
  else if !checkSpec || tag.IsPrivate elementTag.Group then none
  else
    match tag.Find dict elementTag with
    | none => none
    | some info =>
      if !info.VMIsSingle then some (.specNotSingle info.VM) else none

/-- `checkVR`: whether the element's declared VR is the expected one. -/
def checkVR (element : Element) (expectedVR : String) : Bool :=
  expectedVR == element.RawValueRepresentation

/-- `ToBytes`: coerce the payload to a byte sequence. -/
def ToBytes (element : Element) : Except DecodeErr (List Nat) :=
  match element.Value with
  | .bytes b => .ok b
  | v => .error (.convertValue "[]uint8" v.typeName)

/-- `ToStrings`: coerce the payload to a string sequence. -/
def ToStrings (element : Element) : Except DecodeErr (List String) :=
  match element.Value with
  | .strs s => .ok s
  | v => .error (.convertValue "[]string" v.typeName)

/-- `ToString`: coerce the payload to a single string value, enforcing
the single-value rule. -/
def ToString (dict : tag.TagDict) (element : Element) (checkSpec : Bool) :
    Except DecodeErr String :=
  match ToStrings element with
  | .error e => .error e
  | .ok strs =>
    match checkSingleValue dict element.Tag strs.length checkSpec with
    | some e => .error e
    | none => .ok (strs.headD "")

/-- `ToInts`: coerce the payload to an integer sequence. -/
def ToInts (element : Element) : Except DecodeErr (List Int) :=
  match element.Value with
  | .ints i => .ok i
  | v => .error (.convertValue "[]int" v.typeName)

/-- `ToInt`: coerce the payload to a single integer value, enforcing the
single-value rule. -/
def ToInt (dict : tag.TagDict) (element : Element) (checkSpec : Bool) :
    Except DecodeErr Int :=
  match ToInts element with
  | .error e => .error e
  | .ok ints =>
    match checkSingleValue dict element.Tag ints.length checkSpec with
    | some e => .error e
    | none => .ok (ints.headD 0)

/-- The parse-and-collect loop of `ToPersonNames`, wrapping a failure of
`personname.Parse` with the index of the offending string. -/
def parsePersonNamesLoop (i : Nat) :
    List String → Except DecodeErr (List personname.Info)
  | [] => .ok []
  | s :: rest =>
    match personname.Parse s with
    | .error e => .error (.pnParseWrap i e)
    | .ok pn =>
      match parsePersonNamesLoop (i + 1) rest with
      | .error e => .error e
      | .ok pns => .ok (pn :: pns)

/-- `ToPersonNames`: check the `PN` VR, then parse every payload string
as a person name. -/
def ToPersonNames (element : Element) :
    Except DecodeErr (List personname.Info) :=
  if !checkVR element vrraw.PersonName then
    .error
      (.badVR "personname.Info" vrraw.PersonName element.RawValueRepresentation)
  else
    match ToStrings element with
    | .error e => .error e
    | .ok strs => parsePersonNamesLoop 0 strs

/-- `ToPersonName`: single-value form of `ToPersonNames`. -/
def ToPersonName (dict : tag.TagDict) (element : Element) (checkSpec : Bool) :
    Except DecodeErr personname.Info :=
  match ToPersonNames element with
  | .error e => .error e
  | .ok names =>
    match checkSingleValue dict element.Tag names.length checkSpec with
    | some e => .error e
    | none => .ok (names.headD personname.Info.empty)

/-- The parse-and-collect loop of `ToDates`. -/
def parseDatesLoop (allowNema : Bool) (i : Nat) :
    List String → Except DecodeErr (List dcmtime.Date)
  | [] => .ok []
  | s :: rest =>
    match dcmtime.ParseDate s allowNema with
    | .error e => .error (.daParseWrap i e)
    | .ok da =>
      match parseDatesLoop allowNema (i + 1) rest with
      | .error e => .error e
      | .ok das => .ok (da :: das)

/-- `ToDates`: check the `DA` VR, then parse every payload string as a
date.  NOTE: the source builds the wrong-VR failure with
`personname.Info{}` and `vrraw.PersonName` (not the date type and
`vrraw.Date`); this is embedded exactly as written. -/
def ToDates (element : Element) (allowNema : Bool) :
    Except DecodeErr (List dcmtime.Date) :=
  if !checkVR element vrraw.Date then
    .error
      (.badVR "personname.Info" vrraw.PersonName element.RawValueRepresentation)
  else
    match ToStrings element with
    | .error e => .error (.stringsWrap e)
    | .ok strs => parseDatesLoop allowNema 0 strs

/-- `ToDate`: single-value form of `ToDates`. -/
def ToDate (dict : tag.TagDict) (element : Element) (checkSpec allowNema : Bool) :
    Except DecodeErr dcmtime.Date :=
  match ToDates element allowNema with
  | .error e => .error e
  | .ok dates =>
    match checkSingleValue dict element.Tag dates.length checkSpec with
    | some e => .error e
    | none =>
      .ok (dates.headD { year := 0, month := 0, day := 0, Precision := .full })

/-- The parse-and-collect loop of `ToTimes`. -/
def parseTimesLoop (i : Nat) :
    List String → Except DecodeErr (List dcmtime.Time)
  | [] => .ok []
  | s :: rest =>
    match dcmtime.ParseTime s with
    | .error e => .error (.tmParseWrap i e)
    | .ok tm =>
      match parseTimesLoop (i + 1) rest with
      | .error e => .error e
      | .ok tms => .ok (tm :: tms)

/-- `ToTimes`: check the `TM` VR, then parse every payload string as a
time.  NOTE: the source builds the wrong-VR failure with
`personname.Info{}` as the target value (not a time value); this is
embedded exactly as written. -/
def ToTimes (element : Element) : Except DecodeErr (List dcmtime.Time) :=
  if !checkVR element vrraw.Time then
    .error (.badVR "personname.Info" vrraw.Time element.RawValueRepresentation)
  else
    match ToStrings element with
    | .error e => .error (.stringsWrap e)
    | .ok strs => parseTimesLoop 0 strs

/-- `ToTime`: single-value form of `ToTimes`. -/
def ToTime (dict : tag.TagDict) (element : Element) (checkSpec : Bool) :
    Except DecodeErr dcmtime.Time :=
  match ToTimes element with
  | .error e => .error e
  | .ok times =>
    match checkSingleValue dict element.Tag times.length checkSpec with
    | some e => .error e
    | none =>
      .ok (times.headD { hour := 0, minute := 0, second := 0, Precision := .full })

/-- The parse-and-collect loop of `ToDatetimes`. -/
def parseDatetimesLoop (i : Nat) :
    List String → Except DecodeErr (List dcmtime.Datetime)
  | [] => .ok []
  | s :: rest =>
    match dcmtime.ParseDatetime s with
    | .error e => .error (.dtParseWrap i e)
    | .ok dt =>
      match parseDatetimesLoop (i + 1) rest with
      | .error e => .error e
      | .ok dts => .ok (dt :: dts)

/-- `ToDatetimes`: check the `DT` VR, then parse every payload string as
a datetime.  NOTE: the source builds the wrong-VR failure with
`personname.Info{}` as the target value (not a datetime value); this is
embedded exactly as written. -/
def ToDatetimes (element : Element) : Except DecodeErr (List dcmtime.Datetime) :=
  if !checkVR element vrraw.DateTime then
    .error (.badVR "personname.Info" vrraw.DateTime element.RawValueRepresentation)
  else
    match ToStrings element with
    | .error e => .error (.stringsWrap e)
    | .ok strs => parseDatetimesLoop 0 strs

/-- `ToDatetime`: single-value form of `ToDatetimes`. -/
def ToDatetime (dict : tag.TagDict) (element : Element) (checkSpec : Bool) :
    Except DecodeErr dcmtime.Datetime :=
  match ToDatetimes element with
  | .error e => .error e
  | .ok dts =>
    match checkSingleValue dict element.Tag dts.length checkSpec with
    | some e => .error e
    | none =>
      .ok
        (dts.headD
          { year := 0, month := 0, day := 0, hour := 0, minute := 0, second := 0
            Precision := .full })

end ElementValueDecoder

/-- The observable outcome of a fatal-on-error facade operation: a value
returned normally, or an error raised as an unrecoverable fault (Go
`panic`). -/
inductive MustOutcome (α : Type) where
  | value (v : α)
  | fault (e : DecodeErr)
  deriving DecidableEq, Repr

namespace ElementMustValueDecoder

/-- Facade `ToBytes`: panics on error. -/
def ToBytes (element : Element) : MustOutcome (List Nat) :=
  match ElementValueDecoder.ToBytes element with
  | .ok v => .value v
  | .error e => .fault e

/-- Facade `ToStrings`: panics on error. -/
def ToStrings (element : Element) : MustOutcome (List String) :=
  match ElementValueDecoder.ToStrings element with
  | .ok v => .value v
  | .error e => .fault e

/-- Facade `ToString`: panics on error. -/
def ToString (dict : tag.TagDict) (element : Element) (checkSpec : Bool) :
    MustOutcome String :=
  match ElementValueDecoder.ToString dict element checkSpec with
  | .ok v => .value v
  | .error e => .fault e

/-- Facade `ToInts`: panics on error. -/
def ToInts (element : Element) : MustOutcome (List Int) :=
  match ElementValueDecoder.ToInts element with
  | .ok v => .value v
  | .error e => .fault e

/-- Facade `ToInt`: panics on error. -/
def ToInt (dict : tag.TagDict) (element : Element) (checkSpec : Bool) :
    MustOutcome Int :=
  match ElementValueDecoder.ToInt dict element checkSpec with
  | .ok v => .value v
  | .error e => .fault e

/-- Facade `ToPersonNames`: panics on error. -/
def ToPersonNames (element : Element) : MustOutcome (List personname.Info) :=
  match ElementValueDecoder.ToPersonNames element with
  | .ok v => .value v
  | .error e => .fault e

/-- Facade `ToPersonName`: panics on error. -/
def ToPersonName (dict : tag.TagDict) (element : Element) (checkSpec : Bool) :
    MustOutcome personname.Info :=
  match ElementValueDecoder.ToPersonName dict element checkSpec with
  | .ok v => .value v
  | .error e => .fault e

/-- Facade `ToDates`: panics on error. -/
def ToDates (element : Element) (allowNema : Bool) :
    MustOutcome (List dcmtime.Date) :=
  match ElementValueDecoder.ToDates element allowNema with
  | .ok v => .value v
  | .error e => .fault e

/-- Facade `ToDate`: panics on error. -/
def ToDate (dict : tag.TagDict) (element : Element) (checkSpec allowNema : Bool) :
    MustOutcome dcmtime.Date :=
  match ElementValueDecoder.ToDate dict element checkSpec allowNema with
  | .ok v => .value v
  | .error e => .fault e

/-- Facade `ToTimes`: panics on error. -/
def ToTimes (element : Element) : MustOutcome (List dcmtime.Time) :=
  match ElementValueDecoder.ToTimes element with
  | .ok v => .value v
  | .error e => .fault e

/-- Facade `ToTime`: panics on error. -/
def ToTime (dict : tag.TagDict) (element : Element) (checkSpec : Bool) :
    MustOutcome dcmtime.Time :=
  match ElementValueDecoder.ToTime dict element checkSpec with
  | .ok v => .value v
  | .error e => .fault e

/-- Facade `ToDatetimes`: panics on error. -/
def ToDatetimes (element : Element) : MustOutcome (List dcmtime.Datetime) :=
  match ElementValueDecoder.ToDatetimes element with
  | .ok v => .value v
  | .error e => .fault e

/-- Facade `ToDatetime`: panics on error. -/
def ToDatetime (dict : tag.TagDict) (element : Element) (checkSpec : Bool) :
    MustOutcome dcmtime.Datetime :=
  match ElementValueDecoder.ToDatetime dict element checkSpec with
  | .ok v => .value v
  | .error e => .fault e

end ElementMustValueDecoder

end dicom


namespace dicom

/-- The property schema of the single-value rule shared by the six
single-value extraction operations: given the result of the
corresponding plural operation (`plural`) and of the single-value
operation (`single`), whenever the plural operation yields a list,
a count other than 1 fails with the multiple-values error carrying the
count; a sole value fails with the multiplicity spec-violation error
carrying the raw VM string when `checkSpec` is set, the tag group is
not private and the dictionary holds a non-single VM spec for the tag;
and a sole value is returned unchanged when `checkSpec` is unset, or
the group is private, or the lookup misses, or the VM spec is
single-valued. -/
def SingleValueRuleFor {α : Type} (dict : tag.TagDict) (t : tag.Tag)
    (checkSpec : Bool) (plural : Except DecodeErr (List α))
    (single : Except DecodeErr α) : Prop :=
  ∀ vs, plural = .ok vs →
    (vs.length ≠ 1 → single = .error (.multipleValues vs.length)) ∧
    (∀ v, vs = [v] →
      (checkSpec = true → tag.IsPrivate t.Group = false →
        ∀ info, tag.Find dict t = some info → info.VMIsSingle = false →
          single = .error (.specNotSingle info.VM)) ∧
      ((checkSpec = false ∨ tag.IsPrivate t.Group = true ∨
          tag.Find dict t = none ∨
          ∃ info, tag.Find dict t = some info ∧ info.VMIsSingle = true) →
        single = .ok v))

namespace fixtures

/-- A tag with an even (non-private) group. -/
def tagEven : tag.Tag := { Group := 2, Element := 0 }

/-- A dictionary entry whose VM spec is `"2"` (not single-valued). -/
def infoVM2 : tag.Info :=
  { Name := "TestTag", VR := "SH", VM := "2", VMIsSingle := false }

/-- A dictionary that knows only `tagEven`, mapping it to `infoVM2`. -/
def dictVM2 : tag.TagDict :=
  fun t => if t = tagEven then some infoVM2 else none

/-- The everywhere-miss dictionary. -/
def dictEmpty : tag.TagDict := fun _ => none

/-- An element whose string payload has two values. -/
def elemTwoStrings : Element :=
  { Tag := tagEven, RawValueRepresentation := "SH", Value := .strs ["a", "b"] }

/-- An element whose string payload has a single value. -/
def elemOneString : Element :=
  { Tag := tagEven, RawValueRepresentation := "SH", Value := .strs ["a"] }

/-- An element with a `TM` VR and a payload that is not parseable as a
date. -/
def elemDateBadVR : Element :=
  { Tag := tagEven, RawValueRepresentation := "TM", Value := .strs ["NOT-A-DATE"] }

/-- An element with a `DA` VR and a single date payload. -/
def elemOneDate : Element :=
  { Tag := tagEven, RawValueRepresentation := "DA", Value := .strs ["20200304"] }

end fixtures

end dicom

/-- The `personname.Info` value parsed from `"Potter^Harry"`. -/
def pnPotter : personname.Info :=
  { Alphabetic :=
      { FamilyName := "Potter", GivenName := "Harry", MiddleName := ""
        NamePfx := "", NameSuffix := "", TrailingNullLevel := 0 }
    Ideographic := personname.GroupInfo.empty
    Phonetic := personname.GroupInfo.empty
    TrailingNullLevel := 0 }

namespace personname

/-- C4: parsing `"Potter^Harry"`, forcing all trailing-null levels to
ALL, and serializing yields exactly `"Potter^Harry^^^=^^^^=^^^^"`;
parsing that result, forcing all levels to NONE, and serializing yields
exactly `"Potter^Harry"`. -/
theorem parse_trailing_nulls_roundtrip :
    ((Parse "Potter^Harry").map Info.WithTrailingNulls).bind Info.DCM =
      .ok "Potter^Harry^^^=^^^^=^^^^" ∧
    ((Parse "Potter^Harry^^^=^^^^=^^^^").map Info.WithoutTrailingNulls).bind
        Info.DCM =
      .ok "Potter^Harry" := by
  exact ⟨rfl, rfl⟩

/-- C7: the empty string parses to the fully-empty `Info` (all 15
segment fields empty, overall and per-group trailing null levels NONE);
an input of two bare group separators parses to the fully-empty `Info`
with overall trailing null level ALL. -/
theorem parse_empty_and_separators_only :
    Parse "" = .ok Info.empty ∧
    Parse "==" = .ok { Info.empty with TrailingNullLevel := InfoNullAll } := by
  exact ⟨rfl, rfl⟩

end personname

namespace dcmtime

/-- C6: `ParseDate "202003" false` succeeds with month precision and
calendar value 2020-03-01 and serializes back to `"202003"`;
`ParseDate "2020.03" true` yields the same value; `ParseDate "2020.03"
false` fails with the date parse error. -/
theorem parseDate_month_precision_cases :
    ParseDate "202003" false =
      .ok { year := 2020, month := 3, day := 1, Precision := .month } ∧
    Date.DCM { year := 2020, month := 3, day := 1, Precision := .month } =
      "202003" ∧
    ParseDate "2020.03" true =
      .ok { year := 2020, month := 3, day := 1, Precision := .month } ∧
    ParseDate "2020.03" false = .error (.parseDA "2020.03") := by
  exact ⟨rfl, rfl, rfl, rfl⟩

end dcmtime

namespace dicom

/-- C2 (code bug): on a VR mismatch `ToDates` does fail before any
payload text is parsed, but the wrong-VR failure it builds names the
person-name target type and the `PN` expected code instead of the date
target type and the `DA` code (and `ToTimes` / `ToDatetimes` likewise
name the person-name target type); the payload here is not parseable as
a date, and no parse-failure kind is produced. -/
theorem toDates_badVR_names_personname :
    ElementValueDecoder.ToDates fixtures.elemDateBadVR false =
      .error (.badVR "personname.Info" "PN" "TM") ∧
    dcmtime.ParseDate "NOT-A-DATE" false = .error (.parseDA "NOT-A-DATE") ∧
    ElementValueDecoder.ToTimes
        { fixtures.elemDateBadVR with RawValueRepresentation := "DA" } =
      .error (.badVR "personname.Info" "TM" "DA") ∧
    ElementValueDecoder.ToDatetimes
        { fixtures.elemDateBadVR with RawValueRepresentation := "DA" } =
      .error (.badVR "personname.Info" "DT" "DA") := by
  exact ⟨rfl, rfl, rfl, rfl⟩

/-- C9: each facade operation returns exactly the value of the
corresponding fallible operation when the latter succeeds, and raises
exactly its failure as an unrecoverable fault when it fails — for all
thirteen operations and all parameters. -/
theorem must_facade_refines_decoder (dict : tag.TagDict) (element : Element)
    (checkSpec allowNema : Bool) :
    ((∀ v, ElementValueDecoder.ToBytes element = .ok v →
        ElementMustValueDecoder.ToBytes element = .value v) ∧
      (∀ e, ElementValueDecoder.ToBytes element = .error e →
        ElementMustValueDecoder.ToBytes element = .fault e)) ∧
    ((∀ v, ElementValueDecoder.ToStrings element = .ok v →
        ElementMustValueDecoder.ToStrings element = .value v) ∧
      (∀ e, ElementValueDecoder.ToStrings element = .error e →
        ElementMustValueDecoder.ToStrings element = .fault e)) ∧
    ((∀ v, ElementValueDecoder.ToString dict element checkSpec = .ok v →
        ElementMustValueDecoder.ToString dict element checkSpec = .value v) ∧
      (∀ e, ElementValueDecoder.ToString dict element checkSpec = .error e →
        ElementMustValueDecoder.ToString dict element checkSpec = .fault e)) ∧
    ((∀ v, ElementValueDecoder.ToInts element = .ok v →
        ElementMustValueDecoder.ToInts element = .value v) ∧
      (∀ e, ElementValueDecoder.ToInts element = .error e →
        ElementMustValueDecoder.ToInts element = .fault e)) ∧
    ((∀ v, ElementValueDecoder.ToInt dict element checkSpec = .ok v →
        ElementMustValueDecoder.ToInt dict element checkSpec = .value v) ∧
      (∀ e, ElementValueDecoder.ToInt dict element checkSpec = .error e →
        ElementMustValueDecoder.ToInt dict element checkSpec = .fault e)) ∧
    ((∀ v, ElementValueDecoder.ToPersonNames element = .ok v →
        ElementMustValueDecoder.ToPersonNames element = .value v) ∧
      (∀ e, ElementValueDecoder.ToPersonNames element = .error e →
        ElementMustValueDecoder.ToPersonNames element = .fault e)) ∧
    ((∀ v, ElementValueDecoder.ToPersonName dict element checkSpec = .ok v →
        ElementMustValueDecoder.ToPersonName dict element checkSpec = .value v) ∧
      (∀ e, ElementValueDecoder.ToPersonName dict element checkSpec = .error e →
        ElementMustValueDecoder.ToPersonName dict element checkSpec = .fault e)) ∧
    ((∀ v, ElementValueDecoder.ToDates element allowNema = .ok v →
        ElementMustValueDecoder.ToDates element allowNema = .value v) ∧
      (∀ e, ElementValueDecoder.ToDates element allowNema = .error e →
        ElementMustValueDecoder.ToDates element allowNema = .fault e)) ∧
    ((∀ v, ElementValueDecoder.ToDate dict element checkSpec allowNema = .ok v →
        ElementMustValueDecoder.ToDate dict element checkSpec allowNema =
          .value v) ∧
      (∀ e,
        ElementValueDecoder.ToDate dict element checkSpec allowNema = .error e →
        ElementMustValueDecoder.ToDate dict element checkSpec allowNema =
          .fault e)) ∧
    ((∀ v, ElementValueDecoder.ToTimes element = .ok v →
        ElementMustValueDecoder.ToTimes element = .value v) ∧
      (∀ e, ElementValueDecoder.ToTimes element = .error e →
        ElementMustValueDecoder.ToTimes element = .fault e)) ∧
    ((∀ v, ElementValueDecoder.ToTime dict element checkSpec = .ok v →
        ElementMustValueDecoder.ToTime dict element checkSpec = .value v) ∧
      (∀ e, ElementValueDecoder.ToTime dict element checkSpec = .error e →
        ElementMustValueDecoder.ToTime dict element checkSpec = .fault e)) ∧
    ((∀ v, ElementValueDecoder.ToDatetimes element = .ok v →
        ElementMustValueDecoder.ToDatetimes element = .value v) ∧
      (∀ e, ElementValueDecoder.ToDatetimes element = .error e →
        ElementMustValueDecoder.ToDatetimes element = .fault e)) ∧
    ((∀ v, ElementValueDecoder.ToDatetime dict element checkSpec = .ok v →
        ElementMustValueDecoder.ToDatetime dict element checkSpec = .value v) ∧
      (∀ e, ElementValueDecoder.ToDatetime dict element checkSpec = .error e →
        ElementMustValueDecoder.ToDatetime dict element checkSpec = .fault e)) := by
  refine ⟨?_, ?_, ?_, ?_, ?_, ?_, ?_, ?_, ?_, ?_, ?_, ?_, ?_⟩ <;>
    exact
      ⟨fun v h => by
        simp [ElementMustValueDecoder.ToBytes, ElementMustValueDecoder.ToStrings,
        ElementMustValueDecoder.ToString, ElementMustValueDecoder.ToInts,
        ElementMustValueDecoder.ToInt, ElementMustValueDecoder.ToPersonNames,
        ElementMustValueDecoder.ToPersonName, ElementMustValueDecoder.ToDates,
        ElementMustValueDecoder.ToDate, ElementMustValueDecoder.ToTimes,
        ElementMustValueDecoder.ToTime, ElementMustValueDecoder.ToDatetimes,
        ElementMustValueDecoder.ToDatetime, h],
        fun e h => by
        simp [ElementMustValueDecoder.ToBytes, ElementMustValueDecoder.ToStrings,
        ElementMustValueDecoder.ToString, ElementMustValueDecoder.ToInts,
        ElementMustValueDecoder.ToInt, ElementMustValueDecoder.ToPersonNames,
        ElementMustValueDecoder.ToPersonName, ElementMustValueDecoder.ToDates,
        ElementMustValueDecoder.ToDate, ElementMustValueDecoder.ToTimes,
        ElementMustValueDecoder.ToTime, ElementMustValueDecoder.ToDatetimes,
        ElementMustValueDecoder.ToDatetime, h]⟩

/-- C9 witness: the facade at work on a concrete element — `ToStrings`
returns the payload unchanged, `ToBytes` raises the conversion failure. -/
theorem must_facade_refines_decoder_witness :
    ElementMustValueDecoder.ToStrings fixtures.elemOneString = .value ["a"] ∧
    ElementMustValueDecoder.ToBytes fixtures.elemOneString =
      .fault (.convertValue "[]uint8" "[]string") := by
  exact
    ⟨(must_facade_refines_decoder fixtures.dictEmpty fixtures.elemOneString true
          false).2.1.1 ["a"] rfl,
      (must_facade_refines_decoder fixtures.dictEmpty fixtures.elemOneString true
          false).1.2 (.convertValue "[]uint8" "[]string") rfl⟩

end dicom

namespace dicom

/-- `checkSingleValue` on a count other than 1 returns the
multiple-values failure with the observed count. -/
theorem checkSingleValue_multiple (dict : tag.TagDict) (t : tag.Tag)
    (checkSpec : Bool) (n : Nat) (h : n ≠ 1) :
    ElementValueDecoder.checkSingleValue dict t n checkSpec =
      some (.multipleValues n) := by
  simp [ElementValueDecoder.checkSingleValue, h]

/-- `checkSingleValue` on a sole value with the spec check requested, a
non-private group and a non-single dictionary VM spec returns the
multiplicity spec-violation failure with the raw VM string. -/
theorem checkSingleValue_violation (dict : tag.TagDict) (t : tag.Tag)
    (info : tag.Info) (hpriv : tag.IsPrivate t.Group = false)
    (hfind : tag.Find dict t = some info) (hsingle : info.VMIsSingle = false) :
    ElementValueDecoder.checkSingleValue dict t 1 true =
      some (.specNotSingle info.VM) := by
  simp [ElementValueDecoder.checkSingleValue, hpriv, hfind, hsingle]

/-- `checkSingleValue` on a sole value passes when the spec check is
off, or the group is private, or the lookup misses, or the VM spec is
single-valued. -/
theorem checkSingleValue_permissive (dict : tag.TagDict) (t : tag.Tag)
    (checkSpec : Bool)
    (h : checkSpec = false ∨ tag.IsPrivate t.Group = true ∨
      tag.Find dict t = none ∨
      ∃ info, tag.Find dict t = some info ∧ info.VMIsSingle = true) :
    ElementValueDecoder.checkSingleValue dict t 1 checkSpec = none := by
  rcases h with h | h | h | ⟨info, hfind, hsingle⟩
  · simp [ElementValueDecoder.checkSingleValue, h]
  · simp [ElementValueDecoder.checkSingleValue, h]
  · cases checkSpec <;> cases hp : tag.IsPrivate t.Group <;>
      simp [ElementValueDecoder.checkSingleValue, h, hp]
  · cases checkSpec <;> cases hp : tag.IsPrivate t.Group <;>
      simp [ElementValueDecoder.checkSingleValue, hfind, hsingle, hp]

/-- `SingleValueRuleFor` holds for any single-value operation that, on a
successful plural result, applies `checkSingleValue` and either
propagates its failure or returns the head of the list. -/
theorem singleValueRule_of_eqs {α : Type} (dict : tag.TagDict) (t : tag.Tag)
    (checkSpec : Bool) (plural : Except DecodeErr (List α))
    (single : Except DecodeErr α) (d : α)
    (hErr : ∀ vs e, plural = .ok vs →
      ElementValueDecoder.checkSingleValue dict t vs.length checkSpec = some e →
      single = .error e)
    (hOk : ∀ vs, plural = .ok vs →
      ElementValueDecoder.checkSingleValue dict t vs.length checkSpec = none →
      single = .ok (vs.headD d)) :
    SingleValueRuleFor dict t checkSpec plural single := by
  intro vs hvs
  constructor
  · intro hne
    exact hErr vs _ hvs (checkSingleValue_multiple dict t checkSpec vs.length hne)
  · intro v hv
    subst hv
    constructor
    · intro hcs hpriv info hfind hsingle
      subst hcs
      exact hErr [v] _ hvs
        (checkSingleValue_violation dict t info hpriv hfind hsingle)
    · intro hperm
      exact hOk [v] hvs (checkSingleValue_permissive dict t checkSpec hperm)

/-- C1: every single-value extraction (`ToString`, `ToInt`,
`ToPersonName`, `ToDate`, `ToTime`, `ToDatetime`) obeys the single-value
rule relative to its plural operation: a list of count other than 1
fails with the multiple-values error carrying the count; a sole value
fails with the multiplicity spec-violation error carrying the raw VM
string when `checkSpec` is set, the group is not private and the
dictionary VM spec is not single-valued; and the sole value is returned
when `checkSpec` is unset, the group is private, the lookup misses, or
the VM spec is single-valued. -/
theorem single_value_rule (dict : tag.TagDict) (element : Element)
    (checkSpec allowNema : Bool) :
    SingleValueRuleFor dict element.Tag checkSpec
      (ElementValueDecoder.ToStrings element)
      (ElementValueDecoder.ToString dict element checkSpec) ∧
    SingleValueRuleFor dict element.Tag checkSpec
      (ElementValueDecoder.ToInts element)
      (ElementValueDecoder.ToInt dict element checkSpec) ∧
    SingleValueRuleFor dict element.Tag checkSpec
      (ElementValueDecoder.ToPersonNames element)
      (ElementValueDecoder.ToPersonName dict element checkSpec) ∧
    SingleValueRuleFor dict element.Tag checkSpec
      (ElementValueDecoder.ToDates element allowNema)
      (ElementValueDecoder.ToDate dict element checkSpec allowNema) ∧
    SingleValueRuleFor dict element.Tag checkSpec
      (ElementValueDecoder.ToTimes element)
      (ElementValueDecoder.ToTime dict element checkSpec) ∧
    SingleValueRuleFor dict element.Tag checkSpec
      (ElementValueDecoder.ToDatetimes element)
      (ElementValueDecoder.ToDatetime dict element checkSpec) := by
  refine ⟨?_, ?_, ?_, ?_, ?_, ?_⟩
  · exact singleValueRule_of_eqs dict element.Tag checkSpec _ _ ""
      (fun vs e hvs hc => by simp [ElementValueDecoder.ToString, hvs, hc])
      (fun vs hvs hc => by simp [ElementValueDecoder.ToString, hvs, hc])
  · exact singleValueRule_of_eqs dict element.Tag checkSpec _ _ 0
      (fun vs e hvs hc => by simp [ElementValueDecoder.ToInt, hvs, hc])
      (fun vs hvs hc => by simp [ElementValueDecoder.ToInt, hvs, hc])
  · exact singleValueRule_of_eqs dict element.Tag checkSpec _ _
      personname.Info.empty
      (fun vs e hvs hc => by simp [ElementValueDecoder.ToPersonName, hvs, hc])
      (fun vs hvs hc => by simp [ElementValueDecoder.ToPersonName, hvs, hc])
  · exact singleValueRule_of_eqs dict element.Tag checkSpec _ _
      { year := 0, month := 0, day := 0, Precision := .full }
      (fun vs e hvs hc => by simp [ElementValueDecoder.ToDate, hvs, hc])
      (fun vs hvs hc => by simp [ElementValueDecoder.ToDate, hvs, hc])
  · exact singleValueRule_of_eqs dict element.Tag checkSpec _ _
      { hour := 0, minute := 0, second := 0, Precision := .full }
      (fun vs e hvs hc => by simp [ElementValueDecoder.ToTime, hvs, hc])
      (fun vs hvs hc => by simp [ElementValueDecoder.ToTime, hvs, hc])
  · exact singleValueRule_of_eqs dict element.Tag checkSpec _ _
      { year := 0, month := 0, day := 0, hour := 0, minute := 0, second := 0
        Precision := .full }
      (fun vs e hvs hc => by simp [ElementValueDecoder.ToDatetime, hvs, hc])
      (fun vs hvs hc => by simp [ElementValueDecoder.ToDatetime, hvs, hc])

/-- C1 witness: on concrete elements, a two-string payload fails with
the multiple-values error; a sole string under a non-single dictionary
VM spec `"2"` fails with the multiplicity spec-violation error when
`checkSpec` is set and succeeds when it is not. -/
theorem single_value_rule_witness :
    ElementValueDecoder.ToString fixtures.dictVM2 fixtures.elemTwoStrings true =
      .error (.multipleValues 2) ∧
    ElementValueDecoder.ToString fixtures.dictVM2 fixtures.elemOneString true =
      .error (.specNotSingle "2") ∧
    ElementValueDecoder.ToString fixtures.dictVM2 fixtures.elemOneString false =
      .ok "a" := by
  refine ⟨?_, ?_, ?_⟩
  · exact ((single_value_rule fixtures.dictVM2 fixtures.elemTwoStrings true
        false).1 ["a", "b"] rfl).1 (by decide)
  · exact (((single_value_rule fixtures.dictVM2 fixtures.elemOneString true
        false).1 ["a"] rfl).2 "a" rfl).1 rfl (by decide) fixtures.infoVM2 rfl rfl
  · exact (((single_value_rule fixtures.dictVM2 fixtures.elemOneString false
        false).1 ["a"] rfl).2 "a" rfl).2 (Or.inl rfl)

end dicom

namespace personname

/-- If every group before index `j` splits into at most 5 segments and
the group at index `j` splits into more than 5, the parse loop fails
with the too-many-segments error naming the group at position `i + j`
and carrying the observed segment count. -/
theorem parseGroupsLoop_segments_error (gs : List String) :
    ∀ j i info, j < gs.length →
      (∀ k, k < j → (splitOnCh segmentSep (gs.getD k "")).length ≤ 5) →
      (splitOnCh segmentSep (gs.getD j "")).length > 5 →
      parseGroupsLoop i gs info =
        .error (.tooManyGroupSegments (pnGroupOfIdx (i + j))
          (splitOnCh segmentSep (gs.getD j "")).length) := by
  induction gs with
  | nil =>
    intro j i info hj _ _
    simp at hj
  | cons g rest ih =>
    intro j i info hj hk hbad
    cases j with
    | zero =>
      have hg : (splitOnCh segmentSep g).length > 5 := by simpa using hbad
      simp [parseGroupsLoop, groupFromValueString, hg]
    | succ j' =>
      have hgood : (splitOnCh segmentSep g).length ≤ 5 := by
        simpa using hk 0 (Nat.succ_pos j')
      have hnot : ¬(splitOnCh segmentSep g).length > 5 := by omega
      have hrec := ih j' (i + 1)
        (applyGroup info i
          { FamilyName := (splitOnCh segmentSep g).getD 0 ""
            GivenName := (splitOnCh segmentSep g).getD 1 ""
            MiddleName := (splitOnCh segmentSep g).getD 2 ""
            NamePfx := (splitOnCh segmentSep g).getD 3 ""
            NameSuffix := (splitOnCh segmentSep g).getD 4 ""
            TrailingNullLevel :=
              if hasSuffixCh g segmentSep then
                segLevelLoop 0 (splitOnCh segmentSep g) 0
              else 0 })
        (by simpa using hj)
        (fun k hk' => by simpa using hk (k + 1) (by omega))
        (by simpa using hbad)
      have harith : i + 1 + j' = i + (j' + 1) := by omega
      rw [harith] at hrec
      simpa [parseGroupsLoop, groupFromValueString, hnot] using hrec

/-- C3: parsing a text whose `=`-split yields more than 3 groups fails
with the too-many-groups error carrying the group count; otherwise, if
the first offending group (index `j`) splits into more than 5 segments,
parsing fails with the too-many-segments error naming that group
(Alphabetic, Ideographic or Phonetic by position) and carrying the
observed segment count. -/
theorem parse_group_segment_limits (text : String) :
    ((splitOnCh groupSep text).length > 3 →
      Parse text = .error (.tooManyGroups (splitOnCh groupSep text).length)) ∧
    (∀ j, (splitOnCh groupSep text).length ≤ 3 →
      j < (splitOnCh groupSep text).length →
      (∀ k, k < j →
        (splitOnCh segmentSep ((splitOnCh groupSep text).getD k "")).length ≤ 5) →
      (splitOnCh segmentSep ((splitOnCh groupSep text).getD j "")).length > 5 →
      Parse text =
        .error (.tooManyGroupSegments (pnGroupOfIdx j)
          (splitOnCh segmentSep ((splitOnCh groupSep text).getD j "")).length)) := by
  constructor
  · intro h
    simp [Parse, h]
  · intro j hlen hj hk hbad
    have hloop :=
      parseGroupsLoop_segments_error (splitOnCh groupSep text) j 0 Info.empty hj
        hk hbad
    have hnot : ¬(splitOnCh groupSep text).length > 3 := by omega
    simp only [Nat.zero_add] at hloop
    simp [Parse, hnot, hloop]

/-- C3 witness: `"==="` (4 groups) fails with the too-many-groups error
carrying count 4; `"^^^^^"` (6 segments in the Alphabetic group) and
`"=^^^^^"` (6 segments in the Ideographic group) fail with the
too-many-segments error naming the offending group and count 6. -/
theorem parse_group_segment_limits_witness :
    Parse "===" = .error (.tooManyGroups 4) ∧
    Parse "^^^^^" = .error (.tooManyGroupSegments .alphabetic 6) ∧
    Parse "=^^^^^" = .error (.tooManyGroupSegments .ideographic 6) := by
  refine ⟨?_, ?_, ?_⟩
  · exact (parse_group_segment_limits "===").1 (by decide)
  · exact (parse_group_segment_limits "^^^^^").2 0 (by decide) (by decide)
      (fun k hk => by omega) (by decide)
  · exact (parse_group_segment_limits "=^^^^^").2 1 (by decide) (by decide)
      (fun k hk => by
        interval_cases k
        decide)
      (by decide)

/-- Every value of the null-level tracking loop is the initial level, 0,
or the index of one of the scanned entries. -/
theorem segLevelLoop_cases (entries : List String) :
    ∀ i level, segLevelLoop i entries level = level ∨
      segLevelLoop i entries level = 0 ∨
      (i ≤ segLevelLoop i entries level ∧
        segLevelLoop i entries level < i + entries.length) := by
  induction entries with
  | nil =>
    intro i level
    exact Or.inl rfl
  | cons s rest ih =>
    intro i level
    simp only [segLevelLoop]
    rcases ih (i + 1) (if s = "" then i else 0) with h | h | h
    · rw [h]
      split
      · exact Or.inr (Or.inr ⟨Nat.le_refl i, by simp⟩)
      · exact Or.inr (Or.inl rfl)
    · exact Or.inr (Or.inl h)
    · refine Or.inr (Or.inr ⟨by omega, ?_⟩)
      have := h.2
      simp only [List.length_cons]
      omega

/-- A successfully parsed group carries a trailing-null level of at most
`GroupNullAll`. -/
theorem groupFromValueString_level_le (g : String) (pg : pnGroup)
    (gi : GroupInfo) (h : groupFromValueString g pg = .ok gi) :
    gi.TrailingNullLevel ≤ GroupNullAll := by
  unfold groupFromValueString at h
  simp only [gt_iff_lt] at h
  by_cases hlen : 5 < (splitOnCh segmentSep g).length
  · rw [if_pos hlen] at h
    simp at h
  · rw [if_neg hlen] at h
    injection h with h
    subst h
    show
      (if hasSuffixCh g segmentSep then segLevelLoop 0 (splitOnCh segmentSep g) 0
        else 0) ≤ GroupNullAll
    split
    · rcases segLevelLoop_cases (splitOnCh segmentSep g) 0 0 with h | h | h
      · rw [h]; simp [GroupNullAll]
      · rw [h]; simp [GroupNullAll]
      · have h2 := h.2
        simp only [GroupNullAll]
        omega
    · simp [GroupNullAll]

/-- The parse loop preserves the bound `GroupNullAll` on the three
groups' trailing-null levels. -/
theorem parseGroupsLoop_groups_le (gs : List String) :
    ∀ i info info', parseGroupsLoop i gs info = .ok info' →
      info.Alphabetic.TrailingNullLevel ≤ GroupNullAll →
      info.Ideographic.TrailingNullLevel ≤ GroupNullAll →
      info.Phonetic.TrailingNullLevel ≤ GroupNullAll →
      info'.Alphabetic.TrailingNullLevel ≤ GroupNullAll ∧
        info'.Ideographic.TrailingNullLevel ≤ GroupNullAll ∧
        info'.Phonetic.TrailingNullLevel ≤ GroupNullAll := by
  induction gs with
  | nil =>
    intro i info info' h h1 h2 h3
    simp only [parseGroupsLoop] at h
    injection h with h
    subst h
    exact ⟨h1, h2, h3⟩
  | cons g rest ih =>
    intro i info info' h h1 h2 h3
    simp only [parseGroupsLoop] at h
    cases hg : groupFromValueString g (pnGroupOfIdx i) with
    | error e => rw [hg] at h; simp at h
    | ok gi =>
      rw [hg] at h
      have hgl := groupFromValueString_level_le g (pnGroupOfIdx i) gi hg
      refine ih (i + 1) (applyGroup info i gi) info' h ?_ ?_ ?_ <;>
        rcases i with _ | _ | _ | i <;> simpa [applyGroup] using by assumption

/-- A successfully parsed `Info` has its overall trailing-null level at
most `InfoNullAll` and every group's level at most `GroupNullAll`. -/
theorem Parse_levels_le (text : String) (info : Info)
    (h : Parse text = .ok info) :
    info.TrailingNullLevel ≤ InfoNullAll ∧
      info.Alphabetic.TrailingNullLevel ≤ GroupNullAll ∧
      info.Ideographic.TrailingNullLevel ≤ GroupNullAll ∧
      info.Phonetic.TrailingNullLevel ≤ GroupNullAll := by
  unfold Parse at h
  simp only [gt_iff_lt] at h
  by_cases hlen : 3 < (splitOnCh groupSep text).length
  · rw [if_pos hlen] at h
    simp at h
  · rw [if_neg hlen] at h
    cases hloop : parseGroupsLoop 0 (splitOnCh groupSep text) Info.empty with
    | error e => rw [hloop] at h; simp at h
    | ok info0 =>
      rw [hloop] at h
      injection h with h
      subst h
      have hg :=
        parseGroupsLoop_groups_le (splitOnCh groupSep text) 0 Info.empty info0
          hloop (by simp [Info.empty, GroupInfo.empty, GroupNullAll])
          (by simp [Info.empty, GroupInfo.empty, GroupNullAll])
          (by simp [Info.empty, GroupInfo.empty, GroupNullAll])
      refine ⟨?_, hg.1, hg.2.1, hg.2.2⟩
      show segLevelLoop 0 (splitOnCh groupSep text) 0 ≤ InfoNullAll
      rcases segLevelLoop_cases (splitOnCh groupSep text) 0 0 with h | h | h
      · rw [h]; simp [InfoNullAll]
      · rw [h]; simp [InfoNullAll]
      · have h2 := h.2
        simp only [InfoNullAll]
        omega

/-- Serialization succeeds (reaches no panic branch) whenever all four
trailing-null levels are in range. -/
theorem DCM_ok_of_levels (info : Info)
    (h0 : info.TrailingNullLevel ≤ InfoNullAll)
    (h1 : info.Alphabetic.TrailingNullLevel ≤ GroupNullAll)
    (h2 : info.Ideographic.TrailingNullLevel ≤ GroupNullAll)
    (h3 : info.Phonetic.TrailingNullLevel ≤ GroupNullAll) :
    ∃ s, info.DCM = .ok s := by
  simp [Info.DCM, GroupInfo.DCM, validateInfoNullSepLevel,
    validateGroupNullSepLevel, h0, h1, h2, h3]

/-- C10: for every text accepted by `Parse`, the resulting `Info` has
all four trailing-null levels in range, so serializing it with `DCM`
never reaches the out-of-range null-level panic branch at either tier. -/
theorem parse_then_serialize_never_panics (text : String) (info : Info)
    (h : Parse text = .ok info) :
    info.TrailingNullLevel ≤ InfoNullAll ∧
      info.Alphabetic.TrailingNullLevel ≤ GroupNullAll ∧
      info.Ideographic.TrailingNullLevel ≤ GroupNullAll ∧
      info.Phonetic.TrailingNullLevel ≤ GroupNullAll ∧
      ∃ s, info.DCM = .ok s := by
  obtain ⟨h0, h1, h2, h3⟩ := Parse_levels_le text info h
  exact ⟨h0, h1, h2, h3, DCM_ok_of_levels info h0 h1 h2 h3⟩

/-- C10 witness: the value parsed from `"Potter^Harry"` serializes
without reaching a panic branch. -/
theorem parse_then_serialize_never_panics_witness :
    ∃ s, Info.DCM pnPotter = .ok s :=
  (parse_then_serialize_never_panics "Potter^Harry" pnPotter rfl).2.2.2.2

end personname

/-- `splitCh` never returns the empty list of parts. -/
theorem splitCh_ne_nil (sep : Char) (l : List Char) : splitCh sep l ≠ [] := by
  induction l with
  | nil => simp [splitCh]
  | cons a rest ih =>
    simp only [splitCh]
    split
    · simp
    · cases hr : splitCh sep rest with
      | nil => simp
      | cons q t => simp

/-- Every character of a part of `splitCh` is a character of the input. -/
theorem mem_of_mem_splitCh (sep : Char) (l : List Char) :
    ∀ p ∈ splitCh sep l, ∀ c ∈ p, c ∈ l := by
  induction l with
  | nil =>
    intro p hp c hc
    simp [splitCh] at hp
    subst hp
    simp at hc
  | cons a rest ih =>
    intro p hp c hc
    simp only [splitCh] at hp
    by_cases ha : a = sep
    · rw [if_pos ha] at hp
      rcases List.mem_cons.mp hp with h | h
      · subst h; simp at hc
      · exact List.mem_cons_of_mem a (ih p h c hc)
    · rw [if_neg ha] at hp
      cases hr : splitCh sep rest with
      | nil => exact absurd hr (splitCh_ne_nil sep rest)
      | cons q t =>
        rw [hr] at hp
        rcases List.mem_cons.mp hp with h | h
        · subst h
          rcases List.mem_cons.mp hc with h | h
          · subst h; exact List.mem_cons_self _ _
          · have hq : q ∈ splitCh sep rest := by
              rw [hr]; exact List.mem_cons_self q t
            exact List.mem_cons_of_mem a (ih q hq c h)
        · have hp' : p ∈ splitCh sep rest := by
            rw [hr]; exact List.mem_cons_of_mem q h
          exact List.mem_cons_of_mem a (ih p hp' c hc)

/-- The separator never occurs inside a part of `splitCh`. -/
theorem sep_not_mem_splitCh (sep : Char) (l : List Char) :
    ∀ p ∈ splitCh sep l, sep ∉ p := by
  induction l with
  | nil =>
    intro p hp
    simp [splitCh] at hp
    subst hp
    simp
  | cons a rest ih =>
    intro p hp
    simp only [splitCh] at hp
    by_cases ha : a = sep
    · rw [if_pos ha] at hp
      rcases List.mem_cons.mp hp with h | h
      · subst h; simp
      · exact ih p h
    · rw [if_neg ha] at hp
      cases hr : splitCh sep rest with
      | nil => exact absurd hr (splitCh_ne_nil sep rest)
      | cons q t =>
        rw [hr] at hp
        rcases List.mem_cons.mp hp with h | h
        · subst h
          intro hmem
          rcases List.mem_cons.mp hmem with h | h
          · exact ha h.symm
          · have hq : q ∈ splitCh sep rest := by
              rw [hr]; exact List.mem_cons_self q t
            exact ih q hq h
        · have hp' : p ∈ splitCh sep rest := by
            rw [hr]; exact List.mem_cons_of_mem q h
          exact ih p hp' 

/-- Every non-separator character of the input occurs in some part. -/
theorem exists_mem_splitCh (sep : Char) (l : List Char) (c : Char)
    (hc : c ∈ l) (hne : c ≠ sep) : ∃ p ∈ splitCh sep l, c ∈ p := by
  induction l with
  | nil => simp at hc
  | cons a rest ih =>
    simp only [splitCh]
    rcases List.mem_cons.mp hc with h | h
    · subst h
      rw [if_neg hne]
      cases hr : splitCh sep rest with
      | nil => exact absurd hr (splitCh_ne_nil sep rest)
      | cons q t =>
        exact ⟨c :: q, List.mem_cons_self _ _, List.mem_cons_self c q⟩
    · by_cases ha : a = sep
      · rw [if_pos ha]
        obtain ⟨p, hp, hcp⟩ := ih h
        exact ⟨p, List.mem_cons_of_mem _ hp, hcp⟩
      · rw [if_neg ha]
        obtain ⟨p, hp, hcp⟩ := ih h
        cases hr : splitCh sep rest with
        | nil => rw [hr] at hp; simp at hp
        | cons q t =>
          rw [hr] at hp
          rcases List.mem_cons.mp hp with h' | h'
          · subst h'
            exact ⟨a :: p, List.mem_cons_self _ _, List.mem_cons_of_mem a hcp⟩
          · exact ⟨p, List.mem_cons_of_mem _ h', hcp⟩

namespace personname

/-- A string built from characters is empty iff the character list is. -/
theorem string_mk_eq_empty_iff (q : List Char) : String.mk q = "" ↔ q = [] := by
  constructor
  · intro h
    have := congrArg String.data h
    simpa using this
  · intro h
    subst h
    rfl

/-- `getD` with default `""` over a list of empty strings is `""`. -/
theorem getD_all_empty (l : List String) (h : ∀ x ∈ l, x = "") (k : Nat) :
    l.getD k "" = "" := by
  induction l generalizing k with
  | nil => simp
  | cons a t ih =>
    cases k with
    | zero => simpa using h a (List.mem_cons_self a t)
    | succ k => simpa using ih (fun x hx => h x (List.mem_cons_of_mem a hx)) k

/-- Inversion of a successful `groupFromValueString`: at most 5
segments, and each field is the positional segment (default empty). -/
theorem groupFromValueString_ok_inv (g : String) (pg : pnGroup)
    (gi : GroupInfo) (h : groupFromValueString g pg = .ok gi) :
    (splitOnCh segmentSep g).length ≤ 5 ∧
      gi.FamilyName = (splitOnCh segmentSep g).getD 0 "" ∧
      gi.GivenName = (splitOnCh segmentSep g).getD 1 "" ∧
      gi.MiddleName = (splitOnCh segmentSep g).getD 2 "" ∧
      gi.NamePfx = (splitOnCh segmentSep g).getD 3 "" ∧
      gi.NameSuffix = (splitOnCh segmentSep g).getD 4 "" := by
  unfold groupFromValueString at h
  simp only [gt_iff_lt] at h
  by_cases hlen : 5 < (splitOnCh segmentSep g).length
  · rw [if_pos hlen] at h
    simp at h
  · rw [if_neg hlen] at h
    injection h with h
    subst h
    exact ⟨by omega, rfl, rfl, rfl, rfl, rfl⟩

/-- A group parsed from a string consisting only of segment separators
is empty. -/
theorem groupFromValueString_isEmpty_of_allsep (g : String) (pg : pnGroup)
    (gi : GroupInfo) (h : groupFromValueString g pg = .ok gi)
    (hall : ∀ c ∈ g.data, c = segmentSep) : gi.IsEmpty = true := by
  have hseg : ∀ x ∈ splitOnCh segmentSep g, x = "" := by
    intro x hx
    obtain ⟨q, hq, hxq⟩ := List.mem_map.mp hx
    subst hxq
    rw [string_mk_eq_empty_iff]
    rw [List.eq_nil_iff_forall_not_mem]
    intro c hcq
    have hcl : c ∈ g.data := mem_of_mem_splitCh segmentSep g.data q hq c hcq
    have hcs : c = segmentSep := hall c hcl
    exact sep_not_mem_splitCh segmentSep g.data q hq (hcs ▸ hcq)
  obtain ⟨-, h1, h2, h3, h4, h5⟩ := groupFromValueString_ok_inv g pg gi h
  have e1 : gi.FamilyName = "" := by rw [h1]; exact getD_all_empty _ hseg 0
  have e2 : gi.GivenName = "" := by rw [h2]; exact getD_all_empty _ hseg 1
  have e3 : gi.MiddleName = "" := by rw [h3]; exact getD_all_empty _ hseg 2
  have e4 : gi.NamePfx = "" := by rw [h4]; exact getD_all_empty _ hseg 3
  have e5 : gi.NameSuffix = "" := by rw [h5]; exact getD_all_empty _ hseg 4
  simp [GroupInfo.IsEmpty, e1, e2, e3, e4, e5]

/-- `applyGroup` stores the group at its own position (positions 0‥2). -/
theorem nthGroup_applyGroup_self (info : Info) (i : Nat) (gi : GroupInfo)
    (hi : i ≤ 2) : (applyGroup info i gi).nthGroup i = gi := by
  rcases i with _ | _ | _ | i
  · rfl
  · rfl
  · rfl
  · omega

/-- `applyGroup` leaves every other position unchanged. -/
theorem nthGroup_applyGroup_ne (info : Info) (i k : Nat) (gi : GroupInfo)
    (hk : k ≠ i) : (applyGroup info i gi).nthGroup k = info.nthGroup k := by
  rcases i with _ | _ | _ | i <;> rcases k with _ | _ | _ | k <;>
    first
      | rfl
      | omega

/-- `Info.IsEmpty` is false as soon as one of the three positional
groups is non-empty. -/
theorem info_isEmpty_false_of_nth (info : Info) (k : Nat) (hk : k ≤ 2)
    (h : (info.nthGroup k).IsEmpty = false) : info.IsEmpty = false := by
  rcases k with _ | _ | _ | k
  · simp only [Info.nthGroup] at h
    simp [Info.IsEmpty, h]
  · simp only [Info.nthGroup] at h
    simp [Info.IsEmpty, h]
  · simp only [Info.nthGroup] at h
    simp [Info.IsEmpty, h]
  · omega

/-- `applyGroup` of an empty group into an empty `Info` stays empty. -/
theorem applyGroup_isEmpty (info : Info) (i : Nat) (gi : GroupInfo)
    (hinfo : info.IsEmpty = true) (hgi : gi.IsEmpty = true) :
    (applyGroup info i gi).IsEmpty = true := by
  rcases i with _ | _ | _ | i <;> simp_all [applyGroup, Info.IsEmpty]

/-- The parse loop keeps an empty accumulator empty when every group
string consists only of segment separators. -/
theorem parseGroupsLoop_isEmpty_of_allsep (gs : List String) :
    ∀ i info info', parseGroupsLoop i gs info = .ok info' →
      (∀ g ∈ gs, ∀ c ∈ g.data, c = segmentSep) →
      info.IsEmpty = true → info'.IsEmpty = true := by
  induction gs with
  | nil =>
    intro i info info' h _ hi
    simp only [parseGroupsLoop] at h
    injection h with h
    subst h
    exact hi
  | cons g rest ih =>
    intro i info info' h hall hi
    simp only [parseGroupsLoop] at h
    cases hg : groupFromValueString g (pnGroupOfIdx i) with
    | error e => rw [hg] at h; simp at h
    | ok gi =>
      rw [hg] at h
      have hgi := groupFromValueString_isEmpty_of_allsep g _ gi hg
        (fun c hc => hall g (List.mem_cons_self _ _) c hc)
      exact ih (i + 1) _ info' h
        (fun g' hg' c hc => hall g' (List.mem_cons_of_mem _ hg') c hc)
        (applyGroup_isEmpty info i gi hi hgi)

/-- The parse loop never changes positions below its starting index. -/
theorem parseGroupsLoop_untouched (gs : List String) :
    ∀ i info info', parseGroupsLoop i gs info = .ok info' →
      ∀ k, k < i → info'.nthGroup k = info.nthGroup k := by
  induction gs with
  | nil =>
    intro i info info' h k _
    simp only [parseGroupsLoop] at h
    injection h with h
    subst h
    rfl
  | cons g rest ih =>
    intro i info info' h k hk
    simp only [parseGroupsLoop] at h
    cases hg : groupFromValueString g (pnGroupOfIdx i) with
    | error e => rw [hg] at h; simp at h
    | ok gi =>
      rw [hg] at h
      have hrec := ih (i + 1) _ info' h k (by omega)
      rw [hrec, nthGroup_applyGroup_ne info i k gi (by omega)]

/-- A group parsed from a string holding a non-separator character is
non-empty. -/
theorem groupFromValueString_nonempty_of_char (g : String) (pg : pnGroup)
    (gi : GroupInfo) (h : groupFromValueString g pg = .ok gi) (c : Char)
    (hc : c ∈ g.data) (hne : c ≠ segmentSep) : gi.IsEmpty = false := by
  obtain ⟨hlen, h1, h2, h3, h4, h5⟩ := groupFromValueString_ok_inv g pg gi h
  obtain ⟨q, hq, hcq⟩ := exists_mem_splitCh segmentSep g.data c hc hne
  obtain ⟨n, hn⟩ := List.mem_iff_get.mp hq
  have hn' : n.val < (splitOnCh segmentSep g).length := by
    have := n.isLt
    simp only [splitOnCh, List.length_map]
    exact this
  have hqs : (splitOnCh segmentSep g).getD n.val "" = String.mk q := by
    show ((splitCh segmentSep g.data).map String.mk).getD n.val "" = String.mk q
    rw [List.getD_eq_getElem?_getD,
      List.getElem?_eq_getElem
        (show n.val < ((splitCh segmentSep g.data).map String.mk).length by
          rw [List.length_map]
          exact n.isLt)]
    simp only [List.getElem_map, Option.getD_some]
    rw [show (splitCh segmentSep g.data)[n.val] = q from by
      simpa [List.get_eq_getElem] using hn]
  have hne' : (splitOnCh segmentSep g).getD n.val "" ≠ "" := by
    rw [hqs]
    intro hx
    exact List.ne_nil_of_mem hcq ((string_mk_eq_empty_iff q).mp hx)
  have hn5 : n.val < 5 := by omega
  rcases hk : n.val with _ | _ | _ | _ | _ | m
  · have hf : gi.FamilyName ≠ "" := by rw [h1]; rw [hk] at hne'; exact hne'
    simp [GroupInfo.IsEmpty, hf]
  · have hf : gi.GivenName ≠ "" := by rw [h2]; rw [hk] at hne'; exact hne'
    simp [GroupInfo.IsEmpty, hf]
  · have hf : gi.MiddleName ≠ "" := by rw [h3]; rw [hk] at hne'; exact hne'
    simp [GroupInfo.IsEmpty, hf]
  · have hf : gi.NamePfx ≠ "" := by rw [h4]; rw [hk] at hne'; exact hne'
    simp [GroupInfo.IsEmpty, hf]
  · have hf : gi.NameSuffix ≠ "" := by rw [h5]; rw [hk] at hne'; exact hne'
    simp [GroupInfo.IsEmpty, hf]
  · omega

/-- If some group string scanned by the loop holds a non-separator
character (and all positions fit in the three group slots), the
resulting `Info` is non-empty. -/
theorem parseGroupsLoop_nonempty_of_char (gs : List String) :
    ∀ i info info', parseGroupsLoop i gs info = .ok info' →
      i + gs.length ≤ 3 →
      (∃ g ∈ gs, ∃ c ∈ g.data, c ≠ segmentSep) →
      info'.IsEmpty = false := by
  induction gs with
  | nil =>
    intro i info info' _ _ hx
    simp at hx
  | cons g rest ih =>
    intro i info info' h hlen hx
    simp only [parseGroupsLoop] at h
    cases hg : groupFromValueString g (pnGroupOfIdx i) with
    | error e => rw [hg] at h; simp at h
    | ok gi =>
      rw [hg] at h
      rcases hx with ⟨g', hg', c, hc, hne⟩
      rcases List.mem_cons.mp hg' with heq | hmem
      · subst heq
        have hgi : gi.IsEmpty = false :=
          groupFromValueString_nonempty_of_char g' _ gi hg c hc hne
        have hi2 : i ≤ 2 := by
          simp only [List.length_cons] at hlen
          omega
        have hstable := parseGroupsLoop_untouched rest (i + 1) _ info' h i
          (by omega)
        have hval : info'.nthGroup i = gi := by
          rw [hstable, nthGroup_applyGroup_self info i gi hi2]
        exact info_isEmpty_false_of_nth info' i hi2 (by rw [hval]; exact hgi)
      · refine ih (i + 1) _ info' h ?_ ⟨g', hmem, c, hc, hne⟩
        simp only [List.length_cons] at hlen
        omega

/-- Inversion of a successful `Parse`: at most 3 groups, and the result
is the loop's output with the `=`-tier null level installed. -/
theorem Parse_ok_inv (text : String) (info : Info) (h : Parse text = .ok info) :
    (splitOnCh groupSep text).length ≤ 3 ∧
      ∃ info0, parseGroupsLoop 0 (splitOnCh groupSep text) Info.empty = .ok info0 ∧
        info =
          { info0 with
            TrailingNullLevel := segLevelLoop 0 (splitOnCh groupSep text) 0 } := by
  unfold Parse at h
  simp only [gt_iff_lt] at h
  by_cases hlen : 3 < (splitOnCh groupSep text).length
  · rw [if_pos hlen] at h
    simp at h
  · rw [if_neg hlen] at h
    cases hloop : parseGroupsLoop 0 (splitOnCh groupSep text) Info.empty with
    | error e => rw [hloop] at h; simp at h
    | ok info0 =>
      rw [hloop] at h
      injection h with h
      exact ⟨by omega, info0, rfl, h.symm⟩

/-- C8: `IsEmpty` is true exactly when all 15 segment fields are the
empty string, independent of the null levels; and for every text
accepted by `Parse`, the parsed value is empty exactly when the text
consists only of separator characters (including the empty text). -/
theorem isEmpty_characterization :
    (∀ info : Info, info.IsEmpty = true ↔
      (info.Alphabetic.FamilyName = "" ∧ info.Alphabetic.GivenName = "" ∧
        info.Alphabetic.MiddleName = "" ∧ info.Alphabetic.NamePfx = "" ∧
        info.Alphabetic.NameSuffix = "" ∧
        info.Ideographic.FamilyName = "" ∧ info.Ideographic.GivenName = "" ∧
        info.Ideographic.MiddleName = "" ∧ info.Ideographic.NamePfx = "" ∧
        info.Ideographic.NameSuffix = "" ∧
        info.Phonetic.FamilyName = "" ∧ info.Phonetic.GivenName = "" ∧
        info.Phonetic.MiddleName = "" ∧ info.Phonetic.NamePfx = "" ∧
        info.Phonetic.NameSuffix = "")) ∧
    (∀ text info, Parse text = .ok info →
      (info.IsEmpty = true ↔ ∀ c ∈ text.data, c = groupSep ∨ c = segmentSep)) := by
  constructor
  · intro info
    simp [Info.IsEmpty, GroupInfo.IsEmpty, Bool.and_eq_true, and_assoc]
  · intro text info h
    obtain ⟨hlen, info0, hloop, heq⟩ := Parse_ok_inv text info h
    have hinfoEmpty : info.IsEmpty = info0.IsEmpty := by
      subst heq
      rfl
    constructor
    · intro hempty c hc
      by_contra hcon
      push_neg at hcon
      obtain ⟨p, hp, hcp⟩ := exists_mem_splitCh groupSep text.data c hc hcon.1
      have hgmem : String.mk p ∈ splitOnCh groupSep text :=
        List.mem_map_of_mem String.mk hp
      have hfalse : info0.IsEmpty = false :=
        parseGroupsLoop_nonempty_of_char (splitOnCh groupSep text) 0 Info.empty
          info0 hloop (by omega) ⟨String.mk p, hgmem, c, hcp, hcon.2⟩
      rw [hinfoEmpty, hfalse] at hempty
      exact Bool.false_ne_true hempty
    · intro hall
      rw [hinfoEmpty]
      refine parseGroupsLoop_isEmpty_of_allsep (splitOnCh groupSep text) 0
        Info.empty info0 hloop ?_ rfl
      intro g hg c hc
      obtain ⟨p, hp, hpg⟩ := List.mem_map.mp hg
      subst hpg
      have hcl : c ∈ text.data := mem_of_mem_splitCh groupSep text.data p hp c hc
      have hne : c ≠ groupSep := fun hx =>
        sep_not_mem_splitCh groupSep text.data p hp (hx ▸ hc)
      rcases hall c hcl with hcase | hcase
      · exact absurd hcase hne
      · exact hcase

/-- C8 witness: the fully-empty `Info` satisfies the 15-field
characterization, and the value parsed from `"Potter^Harry"` is related
to its text's characters as the theorem states. -/
theorem isEmpty_characterization_witness :
    Info.empty.IsEmpty = true ∧
    (pnPotter.IsEmpty = true ↔
      ∀ c ∈ ("Potter^Harry" : String).data, c = groupSep ∨ c = segmentSep) := by
  constructor
  · exact (isEmpty_characterization.1 Info.empty).mpr
      ⟨rfl, rfl, rfl, rfl, rfl, rfl, rfl, rfl, rfl, rfl, rfl, rfl, rfl, rfl, rfl⟩
  · exact isEmpty_characterization.2 "Potter^Harry" pnPotter rfl

end personname

namespace dcmtime

/-- A decimal digit character's code point lies in `[48, 57]`. -/
theorem char_isDigit_bounds (c : Char) (h : c.isDigit = true) :
    48 ≤ c.toNat ∧ c.toNat ≤ 57 := by
  simp [Char.isDigit] at h
  exact h

/-- `digitChar` only looks at its argument modulo 10. -/
theorem digitChar_eq_of_mod (x y : Nat) (h : x % 10 = y % 10) :
    digitChar x = digitChar y := by
  unfold digitChar
  rw [h]

/-- `digitChar` inverts the code-point offset of a digit character. -/
theorem digitChar_of_digit (c : Char) (h : c.isDigit = true) :
    digitChar (c.toNat - 48) = c := by
  obtain ⟨h1, h2⟩ := char_isDigit_bounds c h
  unfold digitChar
  have hm : (c.toNat - 48) % 10 = c.toNat - 48 := by omega
  rw [hm]
  have ha : 48 + (c.toNat - 48) = c.toNat := by omega
  rw [ha]
  exact Char.ofNat_toNat c

/-- `digitChar` never produces the legacy dot delimiter. -/
theorem digitChar_ne_dot (m : Nat) : digitChar m ≠ '.' := by
  have h : m % 10 < 10 := Nat.mod_lt _ (by omega)
  unfold digitChar
  set k := m % 10 with hk
  interval_cases k <;> decide

/-- A two-character digit run survives the value/print round trip. -/
theorem pad2_digits (l : List Char) (h : l.length = 2)
    (hd : ∀ c ∈ l, c.isDigit = true) : pad2 (digitsToNat l) = String.mk l := by
  rcases l with _ | ⟨a, _ | ⟨b, _ | ⟨c, t⟩⟩⟩
  · simp at h
  · simp at h
  · obtain ⟨ha1, ha2⟩ := char_isDigit_bounds a (hd a (by simp))
    obtain ⟨hb1, hb2⟩ := char_isDigit_bounds b (hd b (by simp))
    have hn : digitsToNat [a, b] = 10 * (a.toNat - 48) + (b.toNat - 48) := by
      simp only [digitsToNat, List.foldl]
      omega
    have e1 : digitChar (digitsToNat [a, b] / 10) = a := by
      have hx : digitsToNat [a, b] / 10 = a.toNat - 48 := by rw [hn]; omega
      rw [hx]
      exact digitChar_of_digit a (hd a (by simp))
    have e2 : digitChar (digitsToNat [a, b]) = b := by
      have hx := digitChar_eq_of_mod (digitsToNat [a, b]) (b.toNat - 48)
        (by rw [hn]; omega)
      rw [hx]
      exact digitChar_of_digit b (hd b (by simp))
    unfold pad2
    rw [e1, e2]
  · simp only [List.length_cons] at h
    omega

/-- A four-character digit run survives the value/print round trip. -/
theorem pad4_digits (l : List Char) (h : l.length = 4)
    (hd : ∀ c ∈ l, c.isDigit = true) : pad4 (digitsToNat l) = String.mk l := by
  rcases l with _ | ⟨a, _ | ⟨b, _ | ⟨c, _ | ⟨d, _ | ⟨e, t⟩⟩⟩⟩⟩
  · simp at h
  · simp at h
  · simp at h
  · simp at h
  · obtain ⟨ha1, ha2⟩ := char_isDigit_bounds a (hd a (by simp))
    obtain ⟨hb1, hb2⟩ := char_isDigit_bounds b (hd b (by simp))
    obtain ⟨hc1, hc2⟩ := char_isDigit_bounds c (hd c (by simp))
    obtain ⟨hd1, hd2⟩ := char_isDigit_bounds d (hd d (by simp))
    have hn : digitsToNat [a, b, c, d] =
        1000 * (a.toNat - 48) + 100 * (b.toNat - 48) + 10 * (c.toNat - 48) +
          (d.toNat - 48) := by
      simp only [digitsToNat, List.foldl]
      omega
    have e1 : digitChar (digitsToNat [a, b, c, d] / 1000) = a := by
      have hx : digitsToNat [a, b, c, d] / 1000 = a.toNat - 48 := by
        rw [hn]; omega
      rw [hx]
      exact digitChar_of_digit a (hd a (by simp))
    have e2 : digitChar (digitsToNat [a, b, c, d] / 100) = b := by
      have hx := digitChar_eq_of_mod (digitsToNat [a, b, c, d] / 100)
        (b.toNat - 48) (by rw [hn]; omega)
      rw [hx]
      exact digitChar_of_digit b (hd b (by simp))
    have e3 : digitChar (digitsToNat [a, b, c, d] / 10) = c := by
      have hx := digitChar_eq_of_mod (digitsToNat [a, b, c, d] / 10)
        (c.toNat - 48) (by rw [hn]; omega)
      rw [hx]
      exact digitChar_of_digit c (hd c (by simp))
    have e4 : digitChar (digitsToNat [a, b, c, d]) = d := by
      have hx := digitChar_eq_of_mod (digitsToNat [a, b, c, d]) (d.toNat - 48)
        (by rw [hn]; omega)
      rw [hx]
      exact digitChar_of_digit d (hd d (by simp))
    unfold pad4
    rw [e1, e2, e3, e4]
  · simp only [List.length_cons] at h
    omega

end dcmtime

namespace dcmtime

/-- C5: every strict date text of exactly 4, 6 or 8 digits parses
successfully (with `allowNema = false`) and serializes back to exactly
the input text; and serialization never emits a legacy dot delimiter,
for any `Date` value whatsoever. -/
theorem parseDate_strict_roundtrip :
    (∀ s : String,
      (s.data.length = 4 ∨ s.data.length = 6 ∨ s.data.length = 8) →
      (∀ c ∈ s.data, c.isDigit = true) →
      ∃ da, ParseDate s false = .ok da ∧ Date.DCM da = s) ∧
    (∀ da : Date, ∀ c ∈ (Date.DCM da).data, c ≠ '.') := by
  constructor
  · intro s hlen hd
    have hall : allDigits s.data = true := List.all_eq_true.mpr hd
    rcases hlen with hl | hl | hl
    · refine ⟨{ year := digitsToNat s.data, month := 1, day := 1,
                  Precision := .year }, ?_, ?_⟩
      · simp [ParseDate, hl, hall]
      · show pad4 (digitsToNat s.data) = s
        rw [pad4_digits s.data hl hd]
    · have l4 : (s.data.take 4).length = 4 := by
        rw [List.length_take, hl]
        decide
      have l2 : (s.data.drop 4).length = 2 := by
        rw [List.length_drop, hl]
      have hd4 : ∀ c ∈ s.data.take 4, c.isDigit = true :=
        fun c hc => hd c (List.take_subset _ _ hc)
      have hd2 : ∀ c ∈ s.data.drop 4, c.isDigit = true :=
        fun c hc => hd c (List.drop_subset _ _ hc)
      refine ⟨{ year := digitsToNat (s.data.take 4),
                month := digitsToNat (s.data.drop 4), day := 1,
                Precision := .month }, ?_, ?_⟩
      · simp [ParseDate, hl, hall]
      · show pad4 (digitsToNat (s.data.take 4)) ++
            pad2 (digitsToNat (s.data.drop 4)) = s
        rw [pad4_digits _ l4 hd4, pad2_digits _ l2 hd2]
        show String.mk (s.data.take 4 ++ s.data.drop 4) = s
        rw [List.take_append_drop]
    · have l4 : (s.data.take 4).length = 4 := by
        rw [List.length_take, hl]
        decide
      have lm : ((s.data.drop 4).take 2).length = 2 := by
        rw [List.length_take, List.length_drop, hl]
        decide
      have ld : (s.data.drop 6).length = 2 := by
        rw [List.length_drop, hl]
      have hd4 : ∀ c ∈ s.data.take 4, c.isDigit = true :=
        fun c hc => hd c (List.take_subset _ _ hc)
      have hdm : ∀ c ∈ (s.data.drop 4).take 2, c.isDigit = true :=
        fun c hc => hd c (List.drop_subset _ _ (List.take_subset _ _ hc))
      have hdd : ∀ c ∈ s.data.drop 6, c.isDigit = true :=
        fun c hc => hd c (List.drop_subset _ _ hc)
      refine ⟨{ year := digitsToNat (s.data.take 4),
                month := digitsToNat ((s.data.drop 4).take 2),
                day := digitsToNat (s.data.drop 6),
                Precision := .full }, ?_, ?_⟩
      · simp [ParseDate, hl, hall]
      · show pad4 (digitsToNat (s.data.take 4)) ++
            pad2 (digitsToNat ((s.data.drop 4).take 2)) ++
            pad2 (digitsToNat (s.data.drop 6)) = s
        rw [pad4_digits _ l4 hd4, pad2_digits _ lm hdm, pad2_digits _ ld hdd]
        show String.mk
            (s.data.take 4 ++ (s.data.drop 4).take 2 ++ s.data.drop 6) = s
        rw [List.append_assoc]
        have hd6 : s.data.drop 6 = (s.data.drop 4).drop 2 := by
          rw [List.drop_drop]
        rw [hd6, List.take_append_drop, List.take_append_drop]
  · intro da c hc
    rcases da with ⟨y, mo, d, p⟩
    have key : ∀ u : List Nat, c ∈ u.map digitChar → c ≠ '.' := by
      intro u hu
      obtain ⟨k, -, hk⟩ := List.mem_map.mp hu
      exact hk ▸ digitChar_ne_dot k
    cases p
    case full => exact key [y / 1000, y / 100, y / 10, y, mo / 10, mo, d / 10, d] hc
    case day => exact key [y / 1000, y / 100, y / 10, y, mo / 10, mo, d / 10, d] hc
    case month => exact key [y / 1000, y / 100, y / 10, y, mo / 10, mo] hc
    case year => exact key [y / 1000, y / 100, y / 10, y] hc
    case hours => exact key [y / 1000, y / 100, y / 10, y, mo / 10, mo, d / 10, d] hc
    case minutes =>
      exact key [y / 1000, y / 100, y / 10, y, mo / 10, mo, d / 10, d] hc

/-- C5 witness: the concrete strict texts `"2020"`, `"202003"` and
`"20200304"` parse and round-trip, and a concrete serialization holds
no dot. -/
theorem parseDate_strict_roundtrip_witness :
    (∃ da, ParseDate "20200304" false = .ok da ∧ Date.DCM da = "20200304") ∧
    ('0' ∈ (Date.DCM { year := 2020, month := 3, day := 4,
                       Precision := .full }).data → ('0' : Char) ≠ '.') := by
  constructor
  · exact parseDate_strict_roundtrip.1 "20200304" (by decide) (by decide)
  · exact fun h =>
      parseDate_strict_roundtrip.2
        { year := 2020, month := 3, day := 4, Precision := .full } '0' h

end dcmtime
